import Mathlib

/-!
Verification of the gravity replicated blob cluster engine and ops client pool.

The `Opsroute` namespace is a shallow embedding of `ClientPool`
(package `opsroute`): `getClient`, `newClient`, `newClientFromLink` and
`GetService` are translated directly from the Go source.

The `BlobCluster` namespace models the replicated blob cluster engine
(membership/heartbeat tracking, write-quorum replication, pull-based fetch,
tombstone-based deferred deletion).  The engine's implementation file is not
part of the provided sources (only its test `cluster_test.go` is), so the
definitions there are modelled from the specification, as indicated by their
doc comments.
-/

namespace Opsroute

/-- An API key as stored in the backend: user email plus bearer token. -/
structure APIKey where
  userEmail : String
  token : String
deriving DecidableEq, Repr

/-- `storage.OpsCenterLink`: the fields consulted by `ClientPool`:
the API URL (cache key), the hostname/site-domain pair used for the agent
lookup, and an optional embedded user credential. -/
structure OpsCenterLink where
  apiURL : String
  hostname : String
  siteDomain : String
  user : Option APIKey
deriving DecidableEq, Repr

/-- An `ops.Operator` handle, modelled by its construction parameters:
`opsclient.NewAuthenticatedClient(url, username, password, ...)`. -/
structure Operator where
  url : String
  username : String
  password : String
deriving DecidableEq, Repr

/-- The `storage.Backend` as consulted by `users.GetOpsCenterAgent`:
a lookup of agent credentials keyed by hostname and site domain, which can
fail (modelled as `none`). -/
def Backend : Type := String → String → Option APIKey

/-- The mutable state of `ClientPool`: the `clients` cache keyed by API URL,
plus the backend from `ClientPoolConfig`. -/
structure ClientPool where
  clients : List (String × Operator)
  backend : Backend

/-- Errors surfaced by the pool: the agent-credential lookup failing. -/
inductive PoolErr
  | agentNotFound
deriving DecidableEq, Repr

/-- Association-list lookup standing in for the Go map read. -/
def lookupCache (clients : List (String × Operator)) (url : String) :
    Option Operator :=
  match clients with
  | [] => none
  | (u, c) :: rest => if u = url then some c else lookupCache rest url

/-- `ClientPool.getClient`: reads the cache under the pool lock, keyed by
the URL alone. -/
def getClient (p : ClientPool) (url : String) : Option Operator :=
  lookupCache p.clients url

/-- `ClientPool.newClient`: builds an authenticated operator from URL,
username and password. -/
def newClient (url username password : String) : Operator :=
  ⟨url, username, password⟩

/-- The credential resolution at the top of `ClientPool.newClientFromLink`:
use the link's embedded user when present, otherwise look up the ops-center
agent in the backend, propagating a lookup failure. -/
def resolveKey (p : ClientPool) (link : OpsCenterLink) : Except PoolErr APIKey :=
  match link.user with
  | some u => Except.ok ⟨u.userEmail, u.token⟩
  | none =>
      match p.backend link.hostname link.siteDomain with
      | some k => Except.ok k
      | none => Except.error PoolErr.agentNotFound

/-- `ClientPool.newClientFromLink`: resolve the credential, then under the
lock re-check the cache for `link.APIURL`; on a hit return the cached
client, otherwise construct, insert into the cache and return. -/
def newClientFromLink (p : ClientPool) (link : OpsCenterLink) :
    Except PoolErr (Operator × ClientPool) :=
  match resolveKey p link with
  | Except.error e => Except.error e
  | Except.ok key =>
      match lookupCache p.clients link.apiURL with
      | some c => Except.ok (c, p)
      | none =>
          let c := newClient link.apiURL key.userEmail key.token
          Except.ok (c, { p with clients := (link.apiURL, c) :: p.clients })

/-- `ClientPool.GetService`: return the cached client for the link's API URL
if present, otherwise fall through to `newClientFromLink`. -/
def GetService (p : ClientPool) (link : OpsCenterLink) :
    Except PoolErr (Operator × ClientPool) :=
  match getClient p link.apiURL with
  | some c => Except.ok (c, p)
  | none => newClientFromLink p link

/-- A cached operator handle used for concrete evaluation. -/
def opA : Operator := newClient "https://a.example.com" "admin@a.example.com" "token1"

/-- A backend holding no agent credentials at all. -/
def backendEmpty : Backend := fun _ _ => none

/-- A pool whose cache already holds a client for one API URL. -/
def pool0 : ClientPool :=
  { clients := [("https://a.example.com", opA)], backend := backendEmpty }

/-- A pool with an empty cache. -/
def poolEmpty : ClientPool := { clients := [], backend := backendEmpty }

/-- A link to the cached URL carrying its own user credential. -/
def linkA : OpsCenterLink :=
  { apiURL := "https://a.example.com", hostname := "a", siteDomain := "d",
    user := some ⟨"admin@a.example.com", "token2"⟩ }

/-- A link to the same URL with different fields and no embedded user. -/
def linkB : OpsCenterLink :=
  { apiURL := "https://a.example.com", hostname := "b", siteDomain := "e",
    user := none }

end Opsroute

namespace BlobCluster

abbrev PeerID := String
abbrev Bytes := List Nat
abbrev Hash := List Nat

/-- Modelled from the spec: ContentHash is a pure function of the bytes and
no two different byte sequences share a hash (§3, collision out of scope).
The concrete SHA-512 digest is outside the provided sources, so the hash is
modelled as the identity embedding of the byte sequence: pure and injective. -/
def contentHash (bs : Bytes) : Hash := bs

/-- Liveness states of a peer record (§3). -/
inductive PeerState
  | active
  | suspect
  | dead
deriving DecidableEq, Repr

/-- Modelled from the spec: a Peer record (§3). -/
structure Peer where
  id : PeerID
  advertiseAddr : String
  lastSeen : Nat
  missedHeartbeats : Nat
  state : PeerState
deriving DecidableEq, Repr

/-- Modelled from the spec: a Replication Manifest (§3). -/
structure Manifest where
  contentHash : Hash
  holders : List PeerID
  writeFactor : Nat
  tombstoned : Bool
  tombstonedAt : Option Nat
deriving DecidableEq, Repr

/-- Modelled from the spec: the Object Envelope returned on write (§3);
the digest field is named after the test's `envelope.SHA512`. -/
structure Envelope where
  sha512 : Hash
  size : Nat
  createdAt : Nat
deriving DecidableEq, Repr

/-- Modelled from the spec: the per-node configuration surface (§6);
`missedHeartbeats` is the threshold of the same name. -/
structure Config where
  writeFactor : Nat
  heartbeatPeriod : Nat
  missedHeartbeats : Nat
  gracePeriod : Nat
  id : PeerID
  advertiseAddr : String
deriving DecidableEq, Repr

/-- Modelled from the spec: the shared Metadata Backend (peer records plus
manifests) together with each node's Local Object Store and the clock. -/
structure ClusterState where
  peers : List Peer
  manifests : List Manifest
  stores : PeerID → Hash → Option Bytes
  now : Nat

/-- Error taxonomy relevant to the claims (§7). -/
inductive BlobErr
  | notFound
  | insufficientReplicas
deriving DecidableEq, Repr

def lookupManifest (ms : List Manifest) (h : Hash) : Option Manifest :=
  match ms with
  | [] => none
  | m :: rest => if m.contentHash = h then some m else lookupManifest rest h

def updateManifest (ms : List Manifest) (h : Hash) (f : Manifest → Manifest) :
    List Manifest :=
  ms.map (fun m => if m.contentHash = h then f m else m)

def removeManifest (ms : List Manifest) (h : Hash) : List Manifest :=
  ms.filter (fun m => decide (m.contentHash ≠ h))

def countManifest (ms : List Manifest) (h : Hash) : Nat :=
  (ms.filter (fun m => decide (m.contentHash = h))).length

/-- Compare-and-append of one holder: add `q` unless already present. -/
def insertHolder (holders : List PeerID) (q : PeerID) : List PeerID :=
  if q ∈ holders then holders else holders ++ [q]

def unionHolders (holders : List PeerID) (adds : List PeerID) : List PeerID :=
  adds.foldl insertHolder holders

/-- The atomic read-modify-write on one manifest's Holders used by both the
Write Coordinator and the Fetch Worker (§5, §9: mutation-by-union). -/
def addHolderOp (ms : List Manifest) (h : Hash) (q : PeerID) : List Manifest :=
  updateManifest ms h (fun m => { m with holders := insertHolder m.holders q })

/-- Modelled from the spec (§4.3 step 4): atomically create the manifest, or
merge the new holders into the existing record by union. -/
def upsertManifest (ms : List Manifest) (h : Hash) (hs : List PeerID)
    (wf : Nat) : List Manifest :=
  match lookupManifest ms h with
  | some _ => updateManifest ms h (fun m => { m with holders := unionHolders m.holders hs })
  | none => ms ++ [{ contentHash := h, holders := unionHolders [] hs,
                     writeFactor := wf, tombstoned := false, tombstonedAt := none }]

def putBytes (st : PeerID → Hash → Option Bytes) (q : PeerID) (h : Hash)
    (b : Bytes) : PeerID → Hash → Option Bytes :=
  fun q' h' => if q' = q ∧ h' = h then some b else st q' h'

def delBytes (st : PeerID → Hash → Option Bytes) (q : PeerID) (h : Hash) :
    PeerID → Hash → Option Bytes :=
  fun q' h' => if q' = q ∧ h' = h then none else st q' h'

def lookupPeer (ps : List Peer) (pid : PeerID) : Option Peer :=
  match ps with
  | [] => none
  | p :: rest => if p.id = pid then some p else lookupPeer rest pid

def upsertPeer (ps : List Peer) (p : Peer) : List Peer :=
  match lookupPeer ps p.id with
  | some _ => ps.map (fun q => if q.id = p.id then p else q)
  | none => ps ++ [p]

/-- Modelled from the spec (§4.1): `Heartbeat()` upserts this node's record
with LastSeen = now; on a heartbeat the record's MissedHeartbeats resets to 0
and its State to Active. -/
def heartbeat (cfg : Config) (s : ClusterState) : ClusterState :=
  let selfRec : Peer :=
    { id := cfg.id, advertiseAddr := cfg.advertiseAddr, lastSeen := s.now,
      missedHeartbeats := 0, state := PeerState.active }
  { s with peers := upsertPeer s.peers selfRec }

/-- Modelled from the spec (§4.1): one peer's record during `ScanPeers()`:
if `now - LastSeen > HeartbeatPeriod` increment MissedHeartbeats; at or past
the threshold the peer is Dead, below it Suspect (Active → Suspect → Dead). -/
def scanPeer (cfg : Config) (now : Nat) (p : Peer) : Peer :=
  if p.id = cfg.id then p
  else if cfg.heartbeatPeriod < now - p.lastSeen then
    { p with missedHeartbeats := p.missedHeartbeats + 1,
             state := if cfg.missedHeartbeats ≤ p.missedHeartbeats + 1
                      then PeerState.dead else PeerState.suspect }
  else p

def scanPeers (cfg : Config) (s : ClusterState) : ClusterState :=
  { s with peers := s.peers.map (scanPeer cfg s.now) }

/-- Currently Active peers excluding self: the write target candidates. -/
def activePeers (s : ClusterState) (selfId : PeerID) : List Peer :=
  s.peers.filter (fun p => decide (p.state = PeerState.active ∧ p.id ≠ selfId))

def peerIsActive (s : ClusterState) (r : PeerID) : Bool :=
  match lookupPeer s.peers r with
  | some p => decide (p.state = PeerState.active)
  | none => false

/-- The pushes of a write that succeeded: up to WriteFactor Active targets,
filtered by the per-push outcome `pushOk`. -/
def writeAccepted (cfg : Config) (s : ClusterState) (pushOk : PeerID → Bool) :
    List PeerID :=
  (((activePeers s cfg.id).take cfg.writeFactor).map Peer.id).filter pushOk

/-- Modelled from the spec (§4.3): `WriteBLOB`.  Stores the bytes locally,
then — unless WriteFactor is the 0/1 degenerate local-only case — requires at
least WriteFactor Active peers (else InsufficientReplicas), pushes to up to
WriteFactor of them (`pushOk` says which pushes succeed; failures are
tolerated), and records the manifest with Holders = self plus acceptors. -/
def writeBLOB (cfg : Config) (s : ClusterState) (p : Bytes)
    (pushOk : PeerID → Bool) : ClusterState × Except BlobErr Envelope :=
  let h := contentHash p
  let env : Envelope := { sha512 := h, size := p.length, createdAt := s.now }
  let s1 : ClusterState := { s with stores := putBytes s.stores cfg.id h p }
  if cfg.writeFactor ≤ 1 then
    ({ s1 with manifests := upsertManifest s1.manifests h [cfg.id] cfg.writeFactor },
     Except.ok env)
  else
    if (activePeers s cfg.id).length < cfg.writeFactor then
      (s1, Except.error BlobErr.insufficientReplicas)
    else
      let accepted := writeAccepted cfg s pushOk
      let s2 : ClusterState :=
        { s1 with stores := accepted.foldl (fun st q => putBytes st q h p) s1.stores }
      ({ s2 with manifests := upsertManifest s2.manifests h (cfg.id :: accepted) cfg.writeFactor },
       Except.ok env)

/-- Modelled from the spec (§6): `Open(hash)` on one peer's Local Object
Store: the bytes, or NotFound. -/
def openBLOB (s : ClusterState) (q : PeerID) (h : Hash) : Except BlobErr Bytes :=
  match s.stores q h with
  | some b => Except.ok b
  | none => Except.error BlobErr.notFound

/-- Modelled from the spec (§4.3): `DeleteBLOB` marks the manifest tombstoned
with TombstonedAt = now and does not delete bytes; NotFound if no manifest. -/
def deleteBLOB (s : ClusterState) (h : Hash) : ClusterState × Except BlobErr Unit :=
  match lookupManifest s.manifests h with
  | none => (s, Except.error BlobErr.notFound)
  | some _ =>
      let ms' := updateManifest s.manifests h
        (fun m => { m with tombstoned := true, tombstonedAt := some s.now })
      ({ s with manifests := ms' }, Except.ok ())

/-- Modelled from the spec (§4.4): one Fetch Worker attempt by node `cfg.id`
on the manifest of `h`: only if self is not a holder, not tombstoned, and an
Active holder exists; pull its bytes, verify the hash (§7: mismatch is
discarded, never stored), store locally and compare-and-append self. -/
def fetchObject (cfg : Config) (s : ClusterState) (h : Hash) : ClusterState :=
  match lookupManifest s.manifests h with
  | none => s
  | some m =>
      if cfg.id ∈ m.holders ∨ m.tombstoned = true then s
      else
        match m.holders.find? (fun r => peerIsActive s r && decide (r ≠ cfg.id)) with
        | none => s
        | some r =>
            match s.stores r h with
            | none => s
            | some b =>
                if contentHash b = h then
                  { s with stores := putBytes s.stores cfg.id h b,
                           manifests := addHolderOp s.manifests h cfg.id }
                else s

/-- Modelled from the spec (§4.4): `fetchNewObjects` scans all manifests. -/
def fetchNewObjects (cfg : Config) (s : ClusterState) : ClusterState :=
  (s.manifests.map Manifest.contentHash).foldl (fetchObject cfg) s

/-- Modelled from the spec (§4.5): one purge step by node `cfg.id` on the
manifest of `h`: skip unless tombstoned and the grace period has elapsed;
then delete the local bytes and remove self from Holders, deleting the whole
record once Holders is empty. -/
def purgeObject (cfg : Config) (s : ClusterState) (h : Hash) : ClusterState :=
  match lookupManifest s.manifests h with
  | none => s
  | some m =>
      if m.tombstoned = true then
        match m.tombstonedAt with
        | none => s
        | some ts =>
            if s.now - ts < cfg.gracePeriod then s
            else
              let stores' := delBytes s.stores cfg.id h
              let msShrunk := updateManifest s.manifests h
                (fun m' => { m' with holders := m'.holders.erase cfg.id })
              if m.holders.erase cfg.id = [] then
                { s with stores := stores', manifests := removeManifest s.manifests h }
              else
                { s with stores := stores', manifests := msShrunk }
      else s

/-- Modelled from the spec (§4.5): `purgeDeletedObjects` scans all manifests. -/
def purgeDeletedObjects (cfg : Config) (s : ClusterState) : ClusterState :=
  (s.manifests.map Manifest.contentHash).foldl (purgeObject cfg) s

/-- The manifest-touching operations quantified over in the holder
monotonicity claim: write-coordinator updates, fetch-worker self-additions
and delete/tombstone. -/
inductive StepKind
  | write (p : Bytes) (pushOk : PeerID → Bool)
  | fetch (h : Hash)
  | tombstone (h : Hash)

def applyStep (cfg : Config) (s : ClusterState) : StepKind → ClusterState
  | StepKind.write p f => (writeBLOB cfg s p f).1
  | StepKind.fetch h => fetchObject cfg s h
  | StepKind.tombstone h => (deleteBLOB s h).1

/-- Every holder of a manifest physically has the bytes whose hash is the
manifest's key (with the identity hash, the bytes equal the key). -/
def holdersHaveBytes (s : ClusterState) : Prop :=
  ∀ h m, lookupManifest s.manifests h = some m →
    ∀ q, q ∈ m.holders → s.stores q h = some h

/-- A liveness transition reported on the watch channel. -/
inductive Transition
  | down
  | up
deriving DecidableEq, Repr

/-- The health-check monitor's view of one peer connection. -/
structure MonState where
  alive : Bool
  missed : Nat
deriving DecidableEq, Repr

/-- Modelled from the spec (§4.1, §8): one HeartbeatPeriod tick of the
liveness monitor for one peer (the peer-reconnect watch mechanism itself is
outside the provided sources).  A successful check resets the record to
Active, reporting an up transition when the peer was down; a failed check
increments the missed count, reporting a down transition when the count
reaches the MissedHeartbeats threshold while the peer was still alive. -/
def stepMon (threshold : Nat) (st : MonState) (connUp : Bool) :
    MonState × Option Transition :=
  if connUp then
    (⟨true, 0⟩, if st.alive then none else some Transition.up)
  else
    if st.alive = true ∧ threshold ≤ st.missed + 1 then
      (⟨false, st.missed + 1⟩, some Transition.down)
    else
      ({ st with missed := st.missed + 1 }, none)

/-- Connection trace of the reconnect scenario: up before the kill at `t1`,
down during `[t1, t2)`, up again from the restore at `t2` on. -/
def connTrace (t1 t2 t : Nat) : Bool :=
  decide (t < t1 ∨ t2 ≤ t)

/-- Monitor state before tick `t` of the reconnect scenario. -/
def monStateAt (threshold t1 t2 : Nat) : Nat → MonState
  | 0 => ⟨true, 0⟩
  | t + 1 => (stepMon threshold (monStateAt threshold t1 t2 t) (connTrace t1 t2 t)).1

/-- The transition, if any, reported at tick `t` of the reconnect scenario. -/
def eventAt (threshold t1 t2 t : Nat) : Option Transition :=
  (stepMon threshold (monStateAt threshold t1 t2 t) (connTrace t1 t2 t)).2

/-- All timestamped transitions reported during ticks `0 .. T-1`. -/
def eventsUpTo (threshold t1 t2 T : Nat) : List (Nat × Transition) :=
  (List.range T).filterMap (fun t => (eventAt threshold t1 t2 t).map (fun e => (t, e)))

/-- Configuration for concrete evaluation: the single-peer test's values. -/
def cfgOne : Config :=
  { writeFactor := 1, heartbeatPeriod := 100, missedHeartbeats := 2,
    gracePeriod := 60000, id := "peer1", advertiseAddr := "https://localhost" }

/-- Three-node configuration of peer `i`, mirroring the multi-peer test. -/
def cfgMulti (i : Nat) : Config :=
  { writeFactor := 2, heartbeatPeriod := 100, missedHeartbeats := 2,
    gracePeriod := 60000, id := toString i, advertiseAddr := "https://localhost" }

def emptyStores : PeerID → Hash → Option Bytes := fun _ _ => none

/-- The initial cluster state: no peers, no manifests, empty stores. -/
def initSt : ClusterState :=
  { peers := [], manifests := [], stores := emptyStores, now := 0 }

/-- A three-node state in which every peer has announced itself. -/
def st3 : ClusterState :=
  heartbeat (cfgMulti 2) (heartbeat (cfgMulti 1) (heartbeat (cfgMulti 0) initSt))

end BlobCluster

namespace Opsroute

theorem lookupCache_head (url : String) (c : Operator)
    (rest : List (String × Operator)) :
    lookupCache ((url, c) :: rest) url = some c := by
  simp [lookupCache]

/-- Any successful resolution leaves the returned client cached under the
link's API URL in the resulting pool. -/
theorem getService_ok_result_cached (p p' : ClientPool) (link : OpsCenterLink)
    (c : Operator) (hok : GetService p link = Except.ok (c, p')) :
    getClient p' link.apiURL = some c := by
  unfold GetService at hok
  cases hg : getClient p link.apiURL with
  | some c0 =>
      rw [hg] at hok
      simp only [Except.ok.injEq, Prod.mk.injEq] at hok
      obtain ⟨hc, hp⟩ := hok
      subst hc
      subst hp
      exact hg
  | none =>
      rw [hg] at hok
      unfold newClientFromLink at hok
      cases hk : resolveKey p link with
      | error e => rw [hk] at hok; exact absurd hok (by simp)
      | ok key =>
          rw [hk] at hok
          have hcache : lookupCache p.clients link.apiURL = none := hg
          rw [hcache] at hok
          simp only [Except.ok.injEq, Prod.mk.injEq] at hok
          obtain ⟨hc, hp⟩ := hok
          subst hc
          subst hp
          exact lookupCache_head _ _ _

end Opsroute

namespace Opsroute

/-- Claim C9: `GetService` returns the cached handle when one exists for the
link's address (the cache is keyed by the API URL, not a peer identity:
every field of the link other than `apiURL` is arbitrary here); otherwise it
constructs a new authenticated handle, stores it in the cache and returns
it; and two resolutions for the same address never construct and cache two
distinct handles: after one successful resolution, every later resolution of
any link with the same address returns the identical handle and leaves the
pool unchanged. -/
theorem c9_getService_cache_and_uniqueness (p : ClientPool) (link : OpsCenterLink) :
    (∀ c, getClient p link.apiURL = some c → GetService p link = Except.ok (c, p)) ∧
    (∀ c p', GetService p link = Except.ok (c, p') →
      getClient p' link.apiURL = some c) ∧
    (∀ u, getClient p link.apiURL = none → link.user = some u →
      GetService p link = Except.ok (newClient link.apiURL u.userEmail u.token,
        { p with clients :=
            (link.apiURL, newClient link.apiURL u.userEmail u.token) :: p.clients })) ∧
    (∀ c p' link', GetService p link = Except.ok (c, p') → link'.apiURL = link.apiURL →
      GetService p' link' = Except.ok (c, p')) := by
  refine ⟨?_, ?_, ?_, ?_⟩
  · intro c hg
    unfold GetService
    rw [hg]
  · intro c p' hok
    exact getService_ok_result_cached p p' link c hok
  · intro u hg hu
    unfold GetService newClientFromLink resolveKey
    rw [hg, hu]
    have hcache : lookupCache p.clients link.apiURL = none := hg
    rw [hcache]
  · intro c p' link' hok hurl
    have hc : getClient p' link'.apiURL = some c := by
      rw [hurl]
      exact getService_ok_result_cached p p' link c hok
    unfold GetService
    rw [hc]

/-- Witness for C9 at concrete inputs: a cache hit returns the cached handle
unchanged, and after a miss-then-construct the second resolution of the same
address (through a different link) returns the very same handle. -/
theorem c9_witness :
    GetService pool0 linkA = Except.ok (opA, pool0) ∧
    GetService poolEmpty linkA =
      Except.ok (newClient linkA.apiURL "admin@a.example.com" "token2",
        { poolEmpty with clients :=
            (linkA.apiURL, newClient linkA.apiURL "admin@a.example.com" "token2")
              :: poolEmpty.clients }) := by
  constructor
  · exact (c9_getService_cache_and_uniqueness pool0 linkA).1 opA rfl
  · exact (c9_getService_cache_and_uniqueness poolEmpty linkA).2.2.1
      ⟨"admin@a.example.com", "token2"⟩ rfl rfl

/-- Claim C10: once the pool caches a client for an API URL, every later
`GetService` whose link has that URL returns that client, independently of
the credentials in the link and of the agent credentials in the backend
(neither is consulted on a cache hit); and the credential lookup can fail
the call — the only construction-path effect observable here — only when no
cache entry exists for the URL. -/
theorem c10_cache_hit_ignores_credentials (p1 p2 : ClientPool)
    (l1 l2 : OpsCenterLink) (c : Operator)
    (hclients : p1.clients = p2.clients) (hurl : l1.apiURL = l2.apiURL)
    (hhit : lookupCache p1.clients l1.apiURL = some c) :
    (GetService p1 l1 = Except.ok (c, p1) ∧ GetService p2 l2 = Except.ok (c, p2)) ∧
    (∀ q l e, GetService q l = Except.error e →
      lookupCache q.clients l.apiURL = none) := by
  constructor
  · constructor
    · unfold GetService
      rw [show getClient p1 l1.apiURL = some c from hhit]
    · have hhit2 : getClient p2 l2.apiURL = some c := by
        show lookupCache p2.clients l2.apiURL = some c
        rw [← hclients, ← hurl]
        exact hhit
      unfold GetService
      rw [hhit2]
  · intro q l e herr
    unfold GetService at herr
    cases hg : getClient q l.apiURL with
    | some c0 => rw [hg] at herr; exact absurd herr (by simp)
    | none => exact hg

/-- Witness for C10 at concrete inputs: the pools share the cache but the
links carry different users and the lookup is against an empty backend. -/
theorem c10_witness :
    GetService pool0 linkA = Except.ok (opA, pool0) ∧
    GetService pool0 linkB = Except.ok (opA, pool0) := by
  have h := c10_cache_hit_ignores_credentials pool0 pool0 linkA linkB opA rfl rfl rfl
  exact h.1

end Opsroute

namespace BlobCluster

theorem lookupManifest_nil (h : Hash) : lookupManifest [] h = none := rfl

theorem lookupManifest_cons (m0 : Manifest) (rest : List Manifest) (h : Hash) :
    lookupManifest (m0 :: rest) h =
      if m0.contentHash = h then some m0 else lookupManifest rest h := rfl

theorem lookupManifest_contentHash (ms : List Manifest) (h : Hash) (m : Manifest)
    (hm : lookupManifest ms h = some m) : m.contentHash = h := by
  induction ms with
  | nil => simp [lookupManifest_nil] at hm
  | cons m0 rest ih =>
      rw [lookupManifest_cons] at hm
      by_cases hc : m0.contentHash = h
      · rw [if_pos hc] at hm
        cases hm
        exact hc
      · rw [if_neg hc] at hm
        exact ih hm

theorem lookupManifest_update_same (ms : List Manifest) (h : Hash)
    (f : Manifest → Manifest) (hf : ∀ m, (f m).contentHash = m.contentHash) :
    lookupManifest (updateManifest ms h f) h = (lookupManifest ms h).map f := by
  induction ms with
  | nil => simp [lookupManifest_nil, updateManifest]
  | cons m0 rest ih =>
      show lookupManifest ((if m0.contentHash = h then f m0 else m0) ::
        updateManifest rest h f) h = _
      by_cases hc : m0.contentHash = h
      · rw [if_pos hc, lookupManifest_cons, lookupManifest_cons,
          if_pos ((hf m0).trans hc), if_pos hc]
        rfl
      · rw [if_neg hc, lookupManifest_cons, lookupManifest_cons,
          if_neg hc, if_neg hc]
        exact ih

theorem lookupManifest_update_other (ms : List Manifest) (h h' : Hash)
    (f : Manifest → Manifest) (hf : ∀ m, (f m).contentHash = m.contentHash)
    (hne : h' ≠ h) :
    lookupManifest (updateManifest ms h f) h' = lookupManifest ms h' := by
  induction ms with
  | nil => simp [lookupManifest_nil, updateManifest]
  | cons m0 rest ih =>
      show lookupManifest ((if m0.contentHash = h then f m0 else m0) ::
        updateManifest rest h f) h' = _
      by_cases hc : m0.contentHash = h
      · have hne0 : ¬ (f m0).contentHash = h' := by
          rw [hf, hc]
          exact fun hcontra => hne hcontra.symm
        have hne1 : ¬ m0.contentHash = h' := by
          rw [hc]
          exact fun hcontra => hne hcontra.symm
        rw [if_pos hc, lookupManifest_cons, lookupManifest_cons,
          if_neg hne0, if_neg hne1]
        exact ih
      · rw [if_neg hc, lookupManifest_cons, lookupManifest_cons]
        by_cases hc' : m0.contentHash = h'
        · rw [if_pos hc', if_pos hc']
        · rw [if_neg hc', if_neg hc']
          exact ih

theorem lookupManifest_append_some (ms l : List Manifest) (h : Hash) (m : Manifest)
    (hm : lookupManifest ms h = some m) : lookupManifest (ms ++ l) h = some m := by
  induction ms with
  | nil => simp [lookupManifest_nil] at hm
  | cons m0 rest ih =>
      rw [lookupManifest_cons] at hm
      rw [List.cons_append, lookupManifest_cons]
      by_cases hc : m0.contentHash = h
      · rw [if_pos hc] at hm ⊢
        exact hm
      · rw [if_neg hc] at hm ⊢
        exact ih hm

theorem lookupManifest_append_none (ms l : List Manifest) (h : Hash)
    (hm : lookupManifest ms h = none) :
    lookupManifest (ms ++ l) h = lookupManifest l h := by
  induction ms with
  | nil => simp
  | cons m0 rest ih =>
      rw [lookupManifest_cons] at hm
      rw [List.cons_append, lookupManifest_cons]
      by_cases hc : m0.contentHash = h
      · rw [if_pos hc] at hm
        cases hm
      · rw [if_neg hc] at hm
        rw [if_neg hc]
        exact ih hm

theorem mem_insertHolder (l : List PeerID) (q x : PeerID) :
    x ∈ insertHolder l q ↔ x ∈ l ∨ x = q := by
  unfold insertHolder
  by_cases hq : q ∈ l
  · rw [if_pos hq]
    constructor
    · exact fun hx => Or.inl hx
    · rintro (hx | rfl)
      · exact hx
      · exact hq
  · rw [if_neg hq]
    simp

theorem insertHolder_subset (l : List PeerID) (q : PeerID) :
    ∀ x, x ∈ l → x ∈ insertHolder l q := by
  intro x hx
  exact (mem_insertHolder l q x).mpr (Or.inl hx)

theorem self_mem_insertHolder (l : List PeerID) (q : PeerID) :
    q ∈ insertHolder l q :=
  (mem_insertHolder l q q).mpr (Or.inr rfl)

theorem mem_unionHolders (adds : List PeerID) :
    ∀ (l : List PeerID) (x : PeerID),
      x ∈ unionHolders l adds ↔ x ∈ l ∨ x ∈ adds := by
  induction adds with
  | nil => intro l x; simp [unionHolders]
  | cons q rest ih =>
      intro l x
      show x ∈ unionHolders (insertHolder l q) rest ↔ x ∈ l ∨ x ∈ q :: rest
      rw [ih (insertHolder l q) x, mem_insertHolder]
      simp only [List.mem_cons]
      tauto

end BlobCluster

namespace BlobCluster

theorem putBytes_same (st : PeerID → Hash → Option Bytes) (q : PeerID)
    (h : Hash) (b : Bytes) : putBytes st q h b q h = some b := by
  simp [putBytes]

theorem putBytes_other (st : PeerID → Hash → Option Bytes) (q q' : PeerID)
    (h h' : Hash) (b : Bytes) (hne : ¬ (q' = q ∧ h' = h)) :
    putBytes st q h b q' h' = st q' h' := by
  simp only [putBytes]
  rw [if_neg hne]

theorem putBytes_eq_self (st : PeerID → Hash → Option Bytes) (q : PeerID)
    (h : Hash) (b : Bytes) (hb : st q h = some b) : putBytes st q h b = st := by
  funext q' h'
  by_cases hqh : q' = q ∧ h' = h
  · obtain ⟨rfl, rfl⟩ := hqh
    rw [putBytes_same, hb]
  · exact putBytes_other st q q' h h' b hqh

theorem foldl_putBytes_not_mem (l : List PeerID)
    (st : PeerID → Hash → Option Bytes) (h : Hash) (b : Bytes)
    (q : PeerID) (h' : Hash) (hq : q ∉ l) :
    (l.foldl (fun acc r => putBytes acc r h b) st) q h' = st q h' := by
  induction l generalizing st with
  | nil => rfl
  | cons r rest ih =>
      have hqr : q ≠ r := fun hcontra => hq (hcontra ▸ List.mem_cons_self r rest)
      have hq' : q ∉ rest := fun hcontra => hq (List.mem_cons_of_mem r hcontra)
      show (rest.foldl (fun acc r => putBytes acc r h b) (putBytes st r h b)) q h' = _
      rw [ih (putBytes st r h b) hq']
      exact putBytes_other st r q h h' b (fun hand => hqr hand.1)

theorem foldl_putBytes_mem (l : List PeerID)
    (st : PeerID → Hash → Option Bytes) (h : Hash) (b : Bytes)
    (q : PeerID) (hq : q ∈ l) :
    (l.foldl (fun acc r => putBytes acc r h b) st) q h = some b := by
  induction l generalizing st with
  | nil => cases hq
  | cons r rest ih =>
      show (rest.foldl (fun acc r => putBytes acc r h b) (putBytes st r h b)) q h = some b
      by_cases hqrest : q ∈ rest
      · exact ih (putBytes st r h b) hqrest
      · have hqr : q = r := by
          rcases List.mem_cons.mp hq with hqr | hqrest'
          · exact hqr
          · exact absurd hqrest' hqrest
        subst hqr
        rw [foldl_putBytes_not_mem rest (putBytes st q h b) h b q h hqrest]
        exact putBytes_same st q h b

theorem foldl_putBytes_noop (l : List PeerID)
    (st : PeerID → Hash → Option Bytes) (h : Hash) (b : Bytes)
    (hall : ∀ r ∈ l, st r h = some b) :
    l.foldl (fun acc r => putBytes acc r h b) st = st := by
  induction l with
  | nil => rfl
  | cons r rest ih =>
      show rest.foldl (fun acc r => putBytes acc r h b) (putBytes st r h b) = st
      rw [putBytes_eq_self st r h b (hall r (List.mem_cons_self r rest))]
      exact ih (fun r' hr' => hall r' (List.mem_cons_of_mem r hr'))

theorem delBytes_same (st : PeerID → Hash → Option Bytes) (q : PeerID)
    (h : Hash) : delBytes st q h q h = none := by
  simp [delBytes]

theorem lookupManifest_upsert_some (ms : List Manifest) (h : Hash)
    (hs : List PeerID) (wf : Nat) (m : Manifest)
    (hm : lookupManifest ms h = some m) :
    lookupManifest (upsertManifest ms h hs wf) h =
      some { m with holders := unionHolders m.holders hs } := by
  unfold upsertManifest
  rw [hm]
  show lookupManifest
    (updateManifest ms h (fun m' => { m' with holders := unionHolders m'.holders hs })) h = _
  rw [lookupManifest_update_same ms h
    (fun m' => { m' with holders := unionHolders m'.holders hs }) (fun m' => rfl), hm]
  rfl

theorem lookupManifest_upsert_none (ms : List Manifest) (h : Hash)
    (hs : List PeerID) (wf : Nat)
    (hm : lookupManifest ms h = none) :
    lookupManifest (upsertManifest ms h hs wf) h =
      some { contentHash := h, holders := unionHolders [] hs,
             writeFactor := wf, tombstoned := false, tombstonedAt := none } := by
  unfold upsertManifest
  rw [hm]
  show lookupManifest (ms ++ [(⟨h, unionHolders [] hs, wf, false, none⟩ : Manifest)]) h = _
  rw [lookupManifest_append_none ms _ h hm, lookupManifest_cons]
  rw [if_pos rfl]

theorem lookupManifest_upsert_other (ms : List Manifest) (h h' : Hash)
    (hs : List PeerID) (wf : Nat) (hne : h' ≠ h) :
    lookupManifest (upsertManifest ms h hs wf) h' = lookupManifest ms h' := by
  unfold upsertManifest
  cases hm : lookupManifest ms h with
  | some m =>
      show lookupManifest
        (updateManifest ms h (fun m' => { m' with holders := unionHolders m'.holders hs })) h' = _
      exact lookupManifest_update_other ms h h'
        (fun m' => { m' with holders := unionHolders m'.holders hs }) (fun m' => rfl) hne
  | none =>
      show lookupManifest (ms ++ [(⟨h, unionHolders [] hs, wf, false, none⟩ : Manifest)]) h' = _
      cases hm' : lookupManifest ms h' with
      | some m' => exact lookupManifest_append_some ms _ h' m' hm'
      | none =>
          rw [lookupManifest_append_none ms _ h' hm', lookupManifest_cons]
          rw [if_neg (fun hcontra => hne hcontra.symm)]
          rfl

end BlobCluster

namespace BlobCluster

theorem writeBLOB_le_one (cfg : Config) (s : ClusterState) (p : Bytes)
    (f : PeerID → Bool) (hwf : cfg.writeFactor ≤ 1) :
    writeBLOB cfg s p f =
      (ClusterState.mk s.peers
        (upsertManifest s.manifests (contentHash p) [cfg.id] cfg.writeFactor)
        (putBytes s.stores cfg.id (contentHash p) p) s.now,
       Except.ok (Envelope.mk (contentHash p) p.length s.now)) := by
  simp only [writeBLOB]
  rw [if_pos hwf]

theorem writeBLOB_unavailable (cfg : Config) (s : ClusterState) (p : Bytes)
    (f : PeerID → Bool) (hwf : ¬ cfg.writeFactor ≤ 1)
    (hlt : (activePeers s cfg.id).length < cfg.writeFactor) :
    writeBLOB cfg s p f =
      (ClusterState.mk s.peers s.manifests
        (putBytes s.stores cfg.id (contentHash p) p) s.now,
       Except.error BlobErr.insufficientReplicas) := by
  simp only [writeBLOB]
  rw [if_neg hwf, if_pos hlt]

theorem writeBLOB_push (cfg : Config) (s : ClusterState) (p : Bytes)
    (f : PeerID → Bool) (hwf : ¬ cfg.writeFactor ≤ 1)
    (hge : ¬ (activePeers s cfg.id).length < cfg.writeFactor) :
    writeBLOB cfg s p f =
      (ClusterState.mk s.peers
        (upsertManifest s.manifests (contentHash p)
          (cfg.id :: writeAccepted cfg s f) cfg.writeFactor)
        ((writeAccepted cfg s f).foldl (fun st q => putBytes st q (contentHash p) p)
          (putBytes s.stores cfg.id (contentHash p) p))
        s.now,
       Except.ok (Envelope.mk (contentHash p) p.length s.now)) := by
  simp only [writeBLOB]
  rw [if_neg hwf, if_neg hge]

theorem writeBLOB_peers (cfg : Config) (s : ClusterState) (p : Bytes)
    (f : PeerID → Bool) : (writeBLOB cfg s p f).1.peers = s.peers := by
  by_cases hwf : cfg.writeFactor ≤ 1
  · rw [writeBLOB_le_one cfg s p f hwf]
  · by_cases hlt : (activePeers s cfg.id).length < cfg.writeFactor
    · rw [writeBLOB_unavailable cfg s p f hwf hlt]
    · rw [writeBLOB_push cfg s p f hwf hlt]

theorem writeBLOB_now (cfg : Config) (s : ClusterState) (p : Bytes)
    (f : PeerID → Bool) : (writeBLOB cfg s p f).1.now = s.now := by
  by_cases hwf : cfg.writeFactor ≤ 1
  · rw [writeBLOB_le_one cfg s p f hwf]
  · by_cases hlt : (activePeers s cfg.id).length < cfg.writeFactor
    · rw [writeBLOB_unavailable cfg s p f hwf hlt]
    · rw [writeBLOB_push cfg s p f hwf hlt]

theorem activePeers_congr (s1 s2 : ClusterState) (i : PeerID)
    (hp : s1.peers = s2.peers) : activePeers s1 i = activePeers s2 i := by
  unfold activePeers
  rw [hp]

theorem writeAccepted_congr (cfg : Config) (s1 s2 : ClusterState)
    (f : PeerID → Bool) (hp : s1.peers = s2.peers) :
    writeAccepted cfg s1 f = writeAccepted cfg s2 f := by
  unfold writeAccepted
  rw [activePeers_congr s1 s2 cfg.id hp]

end BlobCluster

namespace BlobCluster

/-- Claim C3: if fewer Active peers than WriteFactor are available
(excluding self), the write fails with the insufficient-replicas
availability error; except in the degenerate single-node configuration
(WriteFactor 0 or 1), where the write succeeds locally without contacting
any peer: the outcome is independent of the push results and no store other
than the writer's own is touched. -/
theorem c3_write_availability (cfg : Config) (s : ClusterState) (p : Bytes)
    (f g : PeerID → Bool) :
    (cfg.writeFactor ≤ 1 →
      (writeBLOB cfg s p f).2 = Except.ok (Envelope.mk (contentHash p) p.length s.now) ∧
      writeBLOB cfg s p f = writeBLOB cfg s p g ∧
      (∀ q h', q ≠ cfg.id → (writeBLOB cfg s p f).1.stores q h' = s.stores q h')) ∧
    (2 ≤ cfg.writeFactor → (activePeers s cfg.id).length < cfg.writeFactor →
      (writeBLOB cfg s p f).2 = Except.error BlobErr.insufficientReplicas) := by
  constructor
  · intro hwf
    refine ⟨?_, ?_, ?_⟩
    · rw [writeBLOB_le_one cfg s p f hwf]
    · rw [writeBLOB_le_one cfg s p f hwf, writeBLOB_le_one cfg s p g hwf]
    · intro q h' hq
      rw [writeBLOB_le_one cfg s p f hwf]
      exact putBytes_other s.stores cfg.id q (contentHash p) h' p
        (fun hand => hq hand.1)
  · intro hwf hlt
    have hwf' : ¬ cfg.writeFactor ≤ 1 := by omega
    rw [writeBLOB_unavailable cfg s p f hwf' hlt]

/-- Witness for C3: with WriteFactor 1 the write on the empty cluster
succeeds locally; with WriteFactor 2 and no live peer it fails with
InsufficientReplicas. -/
theorem c3_witness :
    (writeBLOB cfgOne initSt [1, 2] (fun _ => true)).2 =
      Except.ok (Envelope.mk (contentHash [1, 2]) (List.length [1, 2]) initSt.now) ∧
    (writeBLOB (cfgMulti 0) initSt [1, 2] (fun _ => true)).2 =
      Except.error BlobErr.insufficientReplicas := by
  constructor
  · exact ((c3_write_availability cfgOne initSt [1, 2] (fun _ => true)
      (fun _ => false)).1 (by decide)).1
  · exact (c3_write_availability (cfgMulti 0) initSt [1, 2] (fun _ => true)
      (fun _ => false)).2 (by decide) (by decide)

end BlobCluster

namespace BlobCluster

theorem openBLOB_some (s : ClusterState) (q : PeerID) (h : Hash) (b : Bytes)
    (hb : s.stores q h = some b) : openBLOB s q h = Except.ok b := by
  unfold openBLOB
  rw [hb]

theorem openBLOB_none (s : ClusterState) (q : PeerID) (h : Hash)
    (hb : s.stores q h = none) : openBLOB s q h = Except.error BlobErr.notFound := by
  unfold openBLOB
  rw [hb]

theorem self_not_mem_writeAccepted (cfg : Config) (s : ClusterState)
    (f : PeerID → Bool) : cfg.id ∉ writeAccepted cfg s f := by
  unfold writeAccepted
  intro hmem
  have hmem' : cfg.id ∈ ((activePeers s cfg.id).take cfg.writeFactor).map Peer.id :=
    List.mem_of_mem_filter hmem
  obtain ⟨pr, hpr, hid⟩ := List.mem_map.mp hmem'
  have hpr' : pr ∈ activePeers s cfg.id := List.mem_of_mem_take hpr
  have hdec := (List.mem_filter.mp hpr').2
  have hprop := of_decide_eq_true hdec
  exact hprop.2 hid

theorem writeBLOB_ok_envelope (cfg : Config) (s : ClusterState) (p : Bytes)
    (f : PeerID → Bool) (env : Envelope)
    (hok : (writeBLOB cfg s p f).2 = Except.ok env) :
    env = Envelope.mk (contentHash p) p.length s.now := by
  by_cases hwf : cfg.writeFactor ≤ 1
  · rw [writeBLOB_le_one cfg s p f hwf] at hok
    exact (Except.ok.inj hok).symm
  · by_cases hlt : (activePeers s cfg.id).length < cfg.writeFactor
    · rw [writeBLOB_unavailable cfg s p f hwf hlt] at hok
      exact absurd hok (by simp)
    · rw [writeBLOB_push cfg s p f hwf hlt] at hok
      exact (Except.ok.inj hok).symm

end BlobCluster

namespace BlobCluster

/-- Claim C1: after a successful `WriteBLOB(P)`, opening the object by the
envelope's content hash returns bytes equal to P: the envelope carries
`hash P`, the writer's own store serves exactly P, and — provided every
pre-existing holder already held its manifests' bytes — every peer recorded
as a holder of `hash P` in the resulting manifest serves exactly P. -/
theorem c1_write_then_open (cfg : Config) (s : ClusterState) (p : Bytes)
    (f : PeerID → Bool) (env : Envelope)
    (hinv : holdersHaveBytes s)
    (hok : (writeBLOB cfg s p f).2 = Except.ok env) :
    env.sha512 = contentHash p ∧
    openBLOB (writeBLOB cfg s p f).1 cfg.id (contentHash p) = Except.ok p ∧
    (∀ q m, lookupManifest (writeBLOB cfg s p f).1.manifests (contentHash p) = some m →
      q ∈ m.holders → openBLOB (writeBLOB cfg s p f).1 q (contentHash p) = Except.ok p) := by
  have henv := writeBLOB_ok_envelope cfg s p f env hok
  subst henv
  by_cases hwf : cfg.writeFactor ≤ 1
  · rw [writeBLOB_le_one cfg s p f hwf]
    refine ⟨rfl, ?_, ?_⟩
    · exact openBLOB_some _ cfg.id (contentHash p) p
        (putBytes_same s.stores cfg.id (contentHash p) p)
    · intro q m hm hq
      cases hm0 : lookupManifest s.manifests (contentHash p) with
      | some m0 =>
          rw [lookupManifest_upsert_some s.manifests (contentHash p) [cfg.id]
            cfg.writeFactor m0 hm0] at hm
          have hm' := Option.some.inj hm
          subst hm'
          rcases (mem_unionHolders [cfg.id] m0.holders q).mp hq with hql | hqr
          · by_cases hqid : q = cfg.id
            · rw [hqid]
              exact openBLOB_some _ cfg.id (contentHash p) p
                (putBytes_same s.stores cfg.id (contentHash p) p)
            · refine openBLOB_some _ q (contentHash p) p ?_
              show putBytes s.stores cfg.id (contentHash p) p q (contentHash p) = some p
              rw [putBytes_other s.stores cfg.id q (contentHash p) (contentHash p) p
                (fun hand => hqid hand.1)]
              exact hinv (contentHash p) m0 hm0 q hql
          · have hqid : q = cfg.id := by simpa using hqr
            rw [hqid]
            exact openBLOB_some _ cfg.id (contentHash p) p
              (putBytes_same s.stores cfg.id (contentHash p) p)
      | none =>
          rw [lookupManifest_upsert_none s.manifests (contentHash p) [cfg.id]
            cfg.writeFactor hm0] at hm
          have hm' := Option.some.inj hm
          subst hm'
          have hq' := (mem_unionHolders [cfg.id] [] q).mp hq
          have hqid : q = cfg.id := by simpa using hq'
          rw [hqid]
          exact openBLOB_some _ cfg.id (contentHash p) p
            (putBytes_same s.stores cfg.id (contentHash p) p)
  · by_cases hlt : (activePeers s cfg.id).length < cfg.writeFactor
    · rw [writeBLOB_unavailable cfg s p f hwf hlt] at hok
      exact absurd hok (by simp)
    · rw [writeBLOB_push cfg s p f hwf hlt]
      have hself : cfg.id ∉ writeAccepted cfg s f := self_not_mem_writeAccepted cfg s f
      have hselfbytes :
          ((writeAccepted cfg s f).foldl (fun st q => putBytes st q (contentHash p) p)
            (putBytes s.stores cfg.id (contentHash p) p)) cfg.id (contentHash p) = some p := by
        rw [foldl_putBytes_not_mem (writeAccepted cfg s f) _ (contentHash p) p cfg.id
          (contentHash p) hself]
        exact putBytes_same s.stores cfg.id (contentHash p) p
      refine ⟨rfl, openBLOB_some _ cfg.id (contentHash p) p hselfbytes, ?_⟩
      intro q m hm hq
      have hbytes : ∀ hold : q ∈ writeAccepted cfg s f ∨ q = cfg.id ∨
          (q ≠ cfg.id ∧ q ∉ writeAccepted cfg s f ∧ s.stores q (contentHash p) = some p),
          ((writeAccepted cfg s f).foldl (fun st r => putBytes st r (contentHash p) p)
            (putBytes s.stores cfg.id (contentHash p) p)) q (contentHash p) = some p := by
        rintro (hacc | rfl | ⟨hne, hnacc, hold⟩)
        · exact foldl_putBytes_mem (writeAccepted cfg s f) _ (contentHash p) p q hacc
        · exact hselfbytes
        · rw [foldl_putBytes_not_mem (writeAccepted cfg s f) _ (contentHash p) p q
            (contentHash p) hnacc]
          rw [putBytes_other s.stores cfg.id q (contentHash p) (contentHash p) p
            (fun hand => hne hand.1)]
          exact hold
      cases hm0 : lookupManifest s.manifests (contentHash p) with
      | some m0 =>
          rw [lookupManifest_upsert_some s.manifests (contentHash p)
            (cfg.id :: writeAccepted cfg s f) cfg.writeFactor m0 hm0] at hm
          have hm' := Option.some.inj hm
          subst hm'
          rcases (mem_unionHolders (cfg.id :: writeAccepted cfg s f) m0.holders q).mp hq
            with hql | hqr
          · by_cases h1 : q ∈ writeAccepted cfg s f
            · exact openBLOB_some _ q (contentHash p) p (hbytes (Or.inl h1))
            · by_cases h2 : q = cfg.id
              · exact openBLOB_some _ q (contentHash p) p (hbytes (Or.inr (Or.inl h2)))
              · refine openBLOB_some _ q (contentHash p) p
                  (hbytes (Or.inr (Or.inr ⟨h2, h1, ?_⟩)))
                exact hinv (contentHash p) m0 hm0 q hql
          · rcases List.mem_cons.mp hqr with h2 | h1
            · exact openBLOB_some _ q (contentHash p) p (hbytes (Or.inr (Or.inl h2)))
            · exact openBLOB_some _ q (contentHash p) p (hbytes (Or.inl h1))
      | none =>
          rw [lookupManifest_upsert_none s.manifests (contentHash p)
            (cfg.id :: writeAccepted cfg s f) cfg.writeFactor hm0] at hm
          have hm' := Option.some.inj hm
          subst hm'
          have hq' := (mem_unionHolders (cfg.id :: writeAccepted cfg s f) [] q).mp hq
          rcases hq' with hfalse | hqr
          · cases hfalse
          · rcases List.mem_cons.mp hqr with h2 | h1
            · exact openBLOB_some _ q (contentHash p) p (hbytes (Or.inr (Or.inl h2)))
            · exact openBLOB_some _ q (contentHash p) p (hbytes (Or.inl h1))

/-- Witness for C1: a concrete single-node write followed by an open by the
content hash returns the written bytes. -/
theorem c1_witness :
    openBLOB (writeBLOB cfgOne initSt [1, 2, 3] (fun _ => true)).1 "peer1"
      (contentHash [1, 2, 3]) = Except.ok [1, 2, 3] := by
  have hinv : holdersHaveBytes initSt := by
    intro h m hm q hq
    simp [initSt, lookupManifest_nil] at hm
  have hok : (writeBLOB cfgOne initSt [1, 2, 3] (fun _ => true)).2 =
      Except.ok (Envelope.mk (contentHash [1, 2, 3]) 3 0) := by
    rw [writeBLOB_le_one cfgOne initSt [1, 2, 3] (fun _ => true) (by decide)]
    rfl
  exact (c1_write_then_open cfgOne initSt [1, 2, 3] (fun _ => true)
    (Envelope.mk (contentHash [1, 2, 3]) 3 0) hinv hok).2.1

end BlobCluster

namespace BlobCluster

theorem countManifest_cons (m0 : Manifest) (rest : List Manifest) (h : Hash) :
    countManifest (m0 :: rest) h =
      (if m0.contentHash = h then 1 else 0) + countManifest rest h := by
  by_cases hc : m0.contentHash = h
  · simp [countManifest, List.filter_cons, hc, Nat.add_comm]
  · simp [countManifest, List.filter_cons, hc]

theorem countManifest_append (ms l : List Manifest) (h : Hash) :
    countManifest (ms ++ l) h = countManifest ms h + countManifest l h := by
  simp [countManifest, List.filter_append]

theorem countManifest_update (ms : List Manifest) (h h' : Hash)
    (f : Manifest → Manifest) (hf : ∀ m, (f m).contentHash = m.contentHash) :
    countManifest (updateManifest ms h f) h' = countManifest ms h' := by
  induction ms with
  | nil => rfl
  | cons m0 rest ih =>
      show countManifest ((if m0.contentHash = h then f m0 else m0) ::
        updateManifest rest h f) h' = _
      rw [countManifest_cons, countManifest_cons, ih]
      by_cases hc : m0.contentHash = h
      · rw [if_pos hc, hf m0]
      · rw [if_neg hc]

theorem lookupManifest_none_of_count_zero (ms : List Manifest) (h : Hash)
    (hc : countManifest ms h = 0) : lookupManifest ms h = none := by
  induction ms with
  | nil => rfl
  | cons m0 rest ih =>
      rw [countManifest_cons] at hc
      rw [lookupManifest_cons]
      by_cases hch : m0.contentHash = h
      · rw [if_pos hch] at hc
        exact absurd hc (by omega)
      · rw [if_neg hch] at hc
        rw [if_neg hch]
        exact ih (by omega)

theorem countManifest_upsert_of_some (ms : List Manifest) (h h' : Hash)
    (hs : List PeerID) (wf : Nat) (m : Manifest)
    (hm : lookupManifest ms h = some m) :
    countManifest (upsertManifest ms h hs wf) h' = countManifest ms h' := by
  unfold upsertManifest
  rw [hm]
  show countManifest
    (updateManifest ms h (fun m' => { m' with holders := unionHolders m'.holders hs })) h' = _
  exact countManifest_update ms h h' _ (fun m' => rfl)

theorem countManifest_upsert_of_none (ms : List Manifest) (h : Hash)
    (hs : List PeerID) (wf : Nat) (hm : lookupManifest ms h = none) :
    countManifest (upsertManifest ms h hs wf) h = countManifest ms h + 1 := by
  unfold upsertManifest
  rw [hm]
  show countManifest (ms ++ [(⟨h, unionHolders [] hs, wf, false, none⟩ : Manifest)]) h = _
  rw [countManifest_append, countManifest_cons]
  simp [countManifest]

end BlobCluster

namespace BlobCluster

/-- Claim C4: writing the same payload twice returns the same envelope (in
particular the same content hash) both times, leaves exactly one manifest
record for that hash, and the second write changes no store: it is a no-op
beyond manifest/holder bookkeeping, reported as success. -/
theorem c4_write_twice (cfg : Config) (s : ClusterState) (p : Bytes)
    (f : PeerID → Bool) (env1 : Envelope) (s1 : ClusterState)
    (hfresh : countManifest s.manifests (contentHash p) = 0)
    (hw1 : writeBLOB cfg s p f = (s1, Except.ok env1)) :
    (writeBLOB cfg s1 p f).2 = Except.ok env1 ∧
    countManifest (writeBLOB cfg s1 p f).1.manifests (contentHash p) = 1 ∧
    (writeBLOB cfg s1 p f).1.stores = s1.stores := by
  have hnone : lookupManifest s.manifests (contentHash p) = none :=
    lookupManifest_none_of_count_zero s.manifests (contentHash p) hfresh
  by_cases hwf : cfg.writeFactor ≤ 1
  · rw [writeBLOB_le_one cfg s p f hwf] at hw1
    injection hw1 with hs1 henv
    injection henv with henv'
    have hm1 : s1.manifests =
        upsertManifest s.manifests (contentHash p) [cfg.id] cfg.writeFactor := by
      rw [← hs1]
    have hst1 : s1.stores = putBytes s.stores cfg.id (contentHash p) p := by
      rw [← hs1]
    have hn1 : s1.now = s.now := by
      rw [← hs1]
    rw [writeBLOB_le_one cfg s1 p f hwf]
    refine ⟨?_, ?_, ?_⟩
    · rw [← henv', hn1]
    · have hlook : lookupManifest s1.manifests (contentHash p) =
          some ⟨contentHash p, unionHolders [] [cfg.id], cfg.writeFactor, false, none⟩ := by
        rw [hm1]
        exact lookupManifest_upsert_none s.manifests (contentHash p) [cfg.id]
          cfg.writeFactor hnone
      rw [countManifest_upsert_of_some s1.manifests (contentHash p) (contentHash p)
        [cfg.id] cfg.writeFactor _ hlook]
      rw [hm1, countManifest_upsert_of_none s.manifests (contentHash p) [cfg.id]
        cfg.writeFactor hnone, hfresh]
    · have hbase : s1.stores cfg.id (contentHash p) = some p := by
        rw [hst1]
        exact putBytes_same s.stores cfg.id (contentHash p) p
      exact putBytes_eq_self s1.stores cfg.id (contentHash p) p hbase
  · by_cases hlt : (activePeers s cfg.id).length < cfg.writeFactor
    · rw [writeBLOB_unavailable cfg s p f hwf hlt] at hw1
      injection hw1 with hs1 henv
      exact absurd henv (by simp)
    · rw [writeBLOB_push cfg s p f hwf hlt] at hw1
      injection hw1 with hs1 henv
      injection henv with henv'
      have hp1 : s1.peers = s.peers := by
        rw [← hs1]
      have hm1 : s1.manifests = upsertManifest s.manifests (contentHash p)
          (cfg.id :: writeAccepted cfg s f) cfg.writeFactor := by
        rw [← hs1]
      have hst1 : s1.stores = (writeAccepted cfg s f).foldl
          (fun st q => putBytes st q (contentHash p) p)
          (putBytes s.stores cfg.id (contentHash p) p) := by
        rw [← hs1]
      have hn1 : s1.now = s.now := by
        rw [← hs1]
      have hlt2 : ¬ (activePeers s1 cfg.id).length < cfg.writeFactor := by
        rw [activePeers_congr s1 s cfg.id hp1]
        exact hlt
      have haccs : writeAccepted cfg s1 f = writeAccepted cfg s f :=
        writeAccepted_congr cfg s1 s f hp1
      rw [writeBLOB_push cfg s1 p f hwf hlt2]
      refine ⟨?_, ?_, ?_⟩
      · rw [← henv', hn1]
      · have hlook : lookupManifest s1.manifests (contentHash p) =
            some ⟨contentHash p, unionHolders [] (cfg.id :: writeAccepted cfg s f),
              cfg.writeFactor, false, none⟩ := by
          rw [hm1]
          exact lookupManifest_upsert_none s.manifests (contentHash p)
            (cfg.id :: writeAccepted cfg s f) cfg.writeFactor hnone
        rw [countManifest_upsert_of_some s1.manifests (contentHash p) (contentHash p)
          (cfg.id :: writeAccepted cfg s1 f) cfg.writeFactor _ hlook]
        rw [hm1, countManifest_upsert_of_none s.manifests (contentHash p)
          (cfg.id :: writeAccepted cfg s f) cfg.writeFactor hnone, hfresh]
      · have hself : cfg.id ∉ writeAccepted cfg s f :=
          self_not_mem_writeAccepted cfg s f
        have hbase : s1.stores cfg.id (contentHash p) = some p := by
          rw [hst1]
          rw [foldl_putBytes_not_mem (writeAccepted cfg s f) _ (contentHash p) p cfg.id
            (contentHash p) hself]
          exact putBytes_same s.stores cfg.id (contentHash p) p
        rw [haccs, putBytes_eq_self s1.stores cfg.id (contentHash p) p hbase]
        refine foldl_putBytes_noop (writeAccepted cfg s f) s1.stores (contentHash p) p ?_
        intro r hr
        rw [hst1]
        exact foldl_putBytes_mem (writeAccepted cfg s f) _ (contentHash p) p r hr

/-- Witness for C4 at a concrete single-node write performed twice. -/
theorem c4_witness :
    (writeBLOB cfgOne (writeBLOB cfgOne initSt [7] (fun _ => true)).1 [7]
      (fun _ => true)).2 =
        Except.ok (Envelope.mk (contentHash [7]) 1 0) ∧
    countManifest (writeBLOB cfgOne (writeBLOB cfgOne initSt [7] (fun _ => true)).1 [7]
      (fun _ => true)).1.manifests (contentHash [7]) = 1 := by
  have hw1 : writeBLOB cfgOne initSt [7] (fun _ => true) =
      ((writeBLOB cfgOne initSt [7] (fun _ => true)).1,
        Except.ok (Envelope.mk (contentHash [7]) 1 0)) := by
    rw [writeBLOB_le_one cfgOne initSt [7] (fun _ => true) (by decide)]
    rfl
  have h := c4_write_twice cfgOne initSt [7] (fun _ => true)
    (Envelope.mk (contentHash [7]) 1 0)
    (writeBLOB cfgOne initSt [7] (fun _ => true)).1 (by decide) hw1
  exact ⟨h.1, h.2.1⟩

end BlobCluster

namespace BlobCluster

theorem lookupManifest_addHolder (ms : List Manifest) (h : Hash) (q : PeerID)
    (m : Manifest) (hm : lookupManifest ms h = some m) :
    lookupManifest (addHolderOp ms h q) h =
      some { m with holders := insertHolder m.holders q } := by
  unfold addHolderOp
  rw [lookupManifest_update_same ms h
    (fun m' => { m' with holders := insertHolder m'.holders q }) (fun m' => rfl), hm]
  rfl

/-- Claim C6: interleaved holder additions through the atomic
compare-and-append primitive (as issued concurrently by fetch workers and
the write coordinator) lose no entry: after any sequence of individually
atomic adds, the manifest's Holders set is exactly the union of the original
holders with all added peers, regardless of the interleaving order. -/
theorem c6_concurrent_holder_adds_union (h : Hash) (adds : List PeerID)
    (ms : List Manifest) (m : Manifest)
    (hm : lookupManifest ms h = some m) :
    ∃ m', lookupManifest (adds.foldl (fun acc q => addHolderOp acc h q) ms) h = some m' ∧
      ∀ x, x ∈ m'.holders ↔ x ∈ m.holders ∨ x ∈ adds := by
  induction adds generalizing ms m with
  | nil => exact ⟨m, hm, fun x => by simp⟩
  | cons q rest ih =>
      have hlook : lookupManifest (addHolderOp ms h q) h =
          some { m with holders := insertHolder m.holders q } :=
        lookupManifest_addHolder ms h q m hm
      obtain ⟨m', hl, hiff⟩ := ih (addHolderOp ms h q) _ hlook
      refine ⟨m', hl, ?_⟩
      intro x
      rw [hiff x]
      show x ∈ insertHolder m.holders q ∨ x ∈ rest ↔ _
      rw [mem_insertHolder]
      simp only [List.mem_cons]
      tauto

/-- Witness for C6 at a concrete manifest and two concurrent adders. -/
theorem c6_witness :
    ∃ m', lookupManifest
        ((["0", "1"] : List PeerID).foldl
          (fun acc q => addHolderOp acc [5] q)
          [(⟨[5], ["peer1"], 1, false, none⟩ : Manifest)]) [5] = some m' ∧
      ∀ x, x ∈ m'.holders ↔ x ∈ (["peer1"] : List PeerID) ∨
        x ∈ (["0", "1"] : List PeerID) :=
  c6_concurrent_holder_adds_union [5] ["0", "1"]
    [(⟨[5], ["peer1"], 1, false, none⟩ : Manifest)]
    ⟨[5], ["peer1"], 1, false, none⟩ (by decide)

end BlobCluster

namespace BlobCluster

theorem fetchObject_eq_or (cfg : Config) (s : ClusterState) (h : Hash) :
    fetchObject cfg s h = s ∨
    ∃ m b, lookupManifest s.manifests h = some m ∧
      fetchObject cfg s h =
        { s with stores := putBytes s.stores cfg.id h b,
                 manifests := addHolderOp s.manifests h cfg.id } := by
  cases hm : lookupManifest s.manifests h with
  | none =>
      left
      unfold fetchObject
      rw [hm]
  | some m =>
      by_cases hg : cfg.id ∈ m.holders ∨ m.tombstoned = true
      · left
        unfold fetchObject
        rw [hm]
        dsimp only
        rw [if_pos hg]
      · cases hr : m.holders.find? (fun r => peerIsActive s r && decide (r ≠ cfg.id)) with
        | none =>
            left
            unfold fetchObject
            rw [hm]
            dsimp only
            rw [if_neg hg, hr]
        | some r =>
            cases hb : s.stores r h with
            | none =>
                left
                unfold fetchObject
                rw [hm]
                dsimp only
                rw [if_neg hg, hr]
                dsimp only
                rw [hb]
            | some b =>
                by_cases hh : contentHash b = h
                · right
                  refine ⟨m, b, rfl, ?_⟩
                  unfold fetchObject
                  rw [hm]
                  dsimp only
                  rw [if_neg hg, hr]
                  dsimp only
                  rw [hb]
                  dsimp only
                  rw [if_pos hh]
                · left
                  unfold fetchObject
                  rw [hm]
                  dsimp only
                  rw [if_neg hg, hr]
                  dsimp only
                  rw [hb]
                  dsimp only
                  rw [if_neg hh]

theorem fetchObject_of_self_holder (cfg : Config) (s : ClusterState) (h : Hash)
    (m : Manifest) (hm : lookupManifest s.manifests h = some m)
    (hself : cfg.id ∈ m.holders) : fetchObject cfg s h = s := by
  unfold fetchObject
  rw [hm]
  dsimp only
  rw [if_pos (Or.inl hself)]

theorem holders_subset_upsert (ms : List Manifest) (hp : Hash) (hs : List PeerID)
    (wf : Nat) (h' : Hash) (m0 : Manifest)
    (hm0 : lookupManifest ms h' = some m0) :
    ∃ m', lookupManifest (upsertManifest ms hp hs wf) h' = some m' ∧
      ∀ x, x ∈ m0.holders → x ∈ m'.holders := by
  by_cases hh : h' = hp
  · subst hh
    rw [lookupManifest_upsert_some ms h' hs wf m0 hm0]
    exact ⟨_, rfl, fun x hx => (mem_unionHolders hs m0.holders x).mpr (Or.inl hx)⟩
  · rw [lookupManifest_upsert_other ms hp h' hs wf hh]
    exact ⟨m0, hm0, fun x hx => hx⟩

theorem deleteBLOB_found (s : ClusterState) (hd : Hash) (m0 : Manifest)
    (hm0 : lookupManifest s.manifests hd = some m0) :
    (deleteBLOB s hd).1.manifests = updateManifest s.manifests hd
      (fun mm => { mm with tombstoned := true, tombstonedAt := some s.now }) ∧
    (deleteBLOB s hd).1.stores = s.stores ∧
    (deleteBLOB s hd).1.now = s.now ∧
    (deleteBLOB s hd).2 = Except.ok () := by
  unfold deleteBLOB
  rw [hm0]
  exact ⟨rfl, rfl, rfl, rfl⟩

theorem deleteBLOB_not_found (s : ClusterState) (hd : Hash)
    (hm0 : lookupManifest s.manifests hd = none) :
    deleteBLOB s hd = (s, Except.error BlobErr.notFound) := by
  unfold deleteBLOB
  rw [hm0]

end BlobCluster

namespace BlobCluster

/-- Claim C5: under the manifest-touching operations — write-coordinator
updates, fetch-worker self-additions, delete/tombstone — a manifest's
Holders set never loses an element (the record is never deleted by these
operations; only the purge worker removes records); and the fetch worker's
self-addition is idempotent: a repeated fetch of the same object leaves the
state unchanged, so each worker adds itself at most once. -/
theorem c5_holders_monotone (cfg : Config) (s : ClusterState) (k : StepKind)
    (h : Hash) (m : Manifest)
    (hm : lookupManifest s.manifests h = some m) :
    (∃ m', lookupManifest (applyStep cfg s k).manifests h = some m' ∧
      ∀ x, x ∈ m.holders → x ∈ m'.holders) ∧
    (∀ h', fetchObject cfg (fetchObject cfg s h') h' = fetchObject cfg s h') := by
  constructor
  · cases k with
    | write p f =>
        show ∃ m', lookupManifest (writeBLOB cfg s p f).1.manifests h = some m' ∧ _
        by_cases hwf : cfg.writeFactor ≤ 1
        · rw [writeBLOB_le_one cfg s p f hwf]
          exact holders_subset_upsert s.manifests (contentHash p) [cfg.id]
            cfg.writeFactor h m hm
        · by_cases hlt : (activePeers s cfg.id).length < cfg.writeFactor
          · rw [writeBLOB_unavailable cfg s p f hwf hlt]
            exact ⟨m, hm, fun x hx => hx⟩
          · rw [writeBLOB_push cfg s p f hwf hlt]
            exact holders_subset_upsert s.manifests (contentHash p)
              (cfg.id :: writeAccepted cfg s f) cfg.writeFactor h m hm
    | fetch hf =>
        show ∃ m', lookupManifest (fetchObject cfg s hf).manifests h = some m' ∧ _
        rcases fetchObject_eq_or cfg s hf with heq | ⟨m0, b, hm0, heq⟩
        · rw [heq]
          exact ⟨m, hm, fun x hx => hx⟩
        · rw [heq]
          show ∃ m', lookupManifest (addHolderOp s.manifests hf cfg.id) h = some m' ∧ _
          by_cases hh : h = hf
          · subst hh
            rw [lookupManifest_addHolder s.manifests h cfg.id m hm]
            exact ⟨_, rfl, fun x hx => insertHolder_subset m.holders cfg.id x hx⟩
          · unfold addHolderOp
            rw [lookupManifest_update_other s.manifests hf h
              (fun mm => { mm with holders := insertHolder mm.holders cfg.id })
              (fun mm => rfl) hh]
            exact ⟨m, hm, fun x hx => hx⟩
    | tombstone hd =>
        show ∃ m', lookupManifest (deleteBLOB s hd).1.manifests h = some m' ∧ _
        cases hd0 : lookupManifest s.manifests hd with
        | none =>
            rw [deleteBLOB_not_found s hd hd0]
            exact ⟨m, hm, fun x hx => hx⟩
        | some m0 =>
            rw [(deleteBLOB_found s hd m0 hd0).1]
            by_cases hh : h = hd
            · subst hh
              rw [lookupManifest_update_same s.manifests h
                (fun mm => { mm with tombstoned := true, tombstonedAt := some s.now })
                (fun mm => rfl), hm]
              exact ⟨_, rfl, fun x hx => hx⟩
            · rw [lookupManifest_update_other s.manifests hd h
                (fun mm => { mm with tombstoned := true, tombstonedAt := some s.now })
                (fun mm => rfl) hh]
              exact ⟨m, hm, fun x hx => hx⟩
  · intro h'
    rcases fetchObject_eq_or cfg s h' with heq | ⟨m0, b, hm0, heq⟩
    · rw [heq]
      exact heq
    · rw [heq]
      have hlook : lookupManifest (addHolderOp s.manifests h' cfg.id) h' =
          some { m0 with holders := insertHolder m0.holders cfg.id } :=
        lookupManifest_addHolder s.manifests h' cfg.id m0 hm0
      exact fetchObject_of_self_holder cfg _ h'
        { m0 with holders := insertHolder m0.holders cfg.id } hlook
        (self_mem_insertHolder m0.holders cfg.id)

/-- Witness for C5 at a concrete manifest and a tombstone step. -/
theorem c5_witness :
    ∃ m', lookupManifest (applyStep cfgOne
        { peers := [], manifests := [(⟨[5], ["peer1"], 1, false, none⟩ : Manifest)],
          stores := emptyStores, now := 3 }
        (StepKind.tombstone [5])).manifests [5] = some m' ∧
      ∀ x, x ∈ (["peer1"] : List PeerID) → x ∈ m'.holders :=
  (c5_holders_monotone cfgOne
    { peers := [], manifests := [(⟨[5], ["peer1"], 1, false, none⟩ : Manifest)],
      stores := emptyStores, now := 3 }
    (StepKind.tombstone [5]) [5] ⟨[5], ["peer1"], 1, false, none⟩ (by decide)).1

end BlobCluster

namespace BlobCluster

theorem lookupPeer_cons (p0 : Peer) (rest : List Peer) (pid : PeerID) :
    lookupPeer (p0 :: rest) pid =
      if p0.id = pid then some p0 else lookupPeer rest pid := rfl

theorem lookupPeer_mem (ps : List Peer) (pid : PeerID) (p : Peer)
    (hp : lookupPeer ps pid = some p) : p ∈ ps := by
  induction ps with
  | nil => cases hp
  | cons p0 rest ih =>
      rw [lookupPeer_cons] at hp
      by_cases hc : p0.id = pid
      · rw [if_pos hc] at hp
        cases hp
        exact List.mem_cons_self _ rest
      · rw [if_neg hc] at hp
        exact List.mem_cons_of_mem p0 (ih hp)

theorem lookupPeer_append_none (ps l : List Peer) (pid : PeerID)
    (hm : lookupPeer ps pid = none) :
    lookupPeer (ps ++ l) pid = lookupPeer l pid := by
  induction ps with
  | nil => simp
  | cons p0 rest ih =>
      rw [lookupPeer_cons] at hm
      rw [List.cons_append, lookupPeer_cons]
      by_cases hc : p0.id = pid
      · rw [if_pos hc] at hm
        cases hm
      · rw [if_neg hc] at hm
        rw [if_neg hc]
        exact ih hm

theorem lookupPeer_map_upd (ps : List Peer) (pr : Peer) (p0 : Peer)
    (hl : lookupPeer ps pr.id = some p0) :
    lookupPeer (ps.map (fun q => if q.id = pr.id then pr else q)) pr.id = some pr := by
  induction ps with
  | nil => cases hl
  | cons q rest ih =>
      rw [lookupPeer_cons] at hl
      show lookupPeer ((if q.id = pr.id then pr else q) ::
        rest.map (fun q' => if q'.id = pr.id then pr else q')) pr.id = some pr
      by_cases hq : q.id = pr.id
      · rw [if_pos hq, lookupPeer_cons, if_pos rfl]
      · rw [if_neg hq] at hl
        rw [if_neg hq, lookupPeer_cons, if_neg hq]
        exact ih hl

theorem lookupPeer_upsert_self (ps : List Peer) (pr : Peer) :
    lookupPeer (upsertPeer ps pr) pr.id = some pr := by
  unfold upsertPeer
  cases hl : lookupPeer ps pr.id with
  | some p0 => exact lookupPeer_map_upd ps pr p0 hl
  | none =>
      rw [lookupPeer_append_none ps [pr] pr.id hl, lookupPeer_cons, if_pos rfl]

theorem mem_activePeers (s : ClusterState) (selfId : PeerID) (q : Peer) :
    q ∈ activePeers s selfId ↔
      q ∈ s.peers ∧ q.state = PeerState.active ∧ q.id ≠ selfId := by
  unfold activePeers
  rw [List.mem_filter]
  simp only [decide_eq_true_eq]

/-- Claim C7: the per-peer liveness state machine.  A heartbeat upserts the
record with LastSeen = now, MissedHeartbeats = 0 and State = Active (so the
initial state on first sight is Active, and a previously Suspect/Dead peer
returns to Active).  A scan that observes a missed heartbeat increments the
missed count and moves the peer to Suspect below the threshold and to Dead
at or beyond it; without a missed deadline the record is untouched.  Write
target selection contains exactly the Active peers other than self — so
Suspect/Dead peers are excluded — and after its heartbeat a peer is again
eligible for every other writer. -/
theorem c7_peer_liveness_state_machine (cfg : Config) (s : ClusterState)
    (pr : Peer) (selfId : PeerID) (now : Nat) :
    (lookupPeer (heartbeat cfg s).peers cfg.id =
      some ⟨cfg.id, cfg.advertiseAddr, s.now, 0, PeerState.active⟩) ∧
    (pr.id ≠ cfg.id → cfg.heartbeatPeriod < now - pr.lastSeen →
      (scanPeer cfg now pr).missedHeartbeats = pr.missedHeartbeats + 1 ∧
      (scanPeer cfg now pr).state =
        (if cfg.missedHeartbeats ≤ pr.missedHeartbeats + 1
         then PeerState.dead else PeerState.suspect)) ∧
    (pr.id ≠ cfg.id → ¬ cfg.heartbeatPeriod < now - pr.lastSeen →
      scanPeer cfg now pr = pr) ∧
    (∀ q, q ∈ activePeers s selfId ↔
      q ∈ s.peers ∧ q.state = PeerState.active ∧ q.id ≠ selfId) ∧
    (selfId ≠ cfg.id →
      (⟨cfg.id, cfg.advertiseAddr, s.now, 0, PeerState.active⟩ : Peer) ∈
        activePeers (heartbeat cfg s) selfId) := by
  refine ⟨?_, ?_, ?_, ?_, ?_⟩
  · exact lookupPeer_upsert_self s.peers
      ⟨cfg.id, cfg.advertiseAddr, s.now, 0, PeerState.active⟩
  · intro hne hmiss
    unfold scanPeer
    rw [if_neg hne, if_pos hmiss]
    exact ⟨rfl, rfl⟩
  · intro hne hnmiss
    unfold scanPeer
    rw [if_neg hne, if_neg hnmiss]
  · intro q
    exact mem_activePeers s selfId q
  · intro hne
    rw [mem_activePeers]
    refine ⟨?_, rfl, fun hcontra => hne hcontra.symm⟩
    exact lookupPeer_mem _ cfg.id _ (lookupPeer_upsert_self s.peers
      ⟨cfg.id, cfg.advertiseAddr, s.now, 0, PeerState.active⟩)

/-- Witness for C7 at concrete inputs: a missed scan on an Active peer with
one prior miss reaches the threshold of 2 and is marked Dead. -/
theorem c7_witness :
    (scanPeer (cfgMulti 0) 201 ⟨"1", "https://localhost", 0, 1, PeerState.active⟩).missedHeartbeats =
      1 + 1 ∧
    (scanPeer (cfgMulti 0) 201 ⟨"1", "https://localhost", 0, 1, PeerState.active⟩).state =
      (if (cfgMulti 0).missedHeartbeats ≤ 1 + 1
       then PeerState.dead else PeerState.suspect) :=
  (c7_peer_liveness_state_machine (cfgMulti 0) initSt
    ⟨"1", "https://localhost", 0, 1, PeerState.active⟩ "1" 201).2.1
    (by decide) (by decide)

end BlobCluster

namespace BlobCluster

theorem purgeObject_skip (cfg : Config) (s : ClusterState) (h : Hash)
    (m : Manifest) (ts : Nat) (hm : lookupManifest s.manifests h = some m)
    (ht : m.tombstoned = true) (hts : m.tombstonedAt = some ts)
    (hgrace : s.now - ts < cfg.gracePeriod) : purgeObject cfg s h = s := by
  unfold purgeObject
  rw [hm]
  dsimp only
  rw [if_pos ht, hts]
  dsimp only
  rw [if_pos hgrace]

theorem purgeObject_purges (cfg : Config) (s : ClusterState) (h : Hash)
    (m : Manifest) (ts : Nat) (hm : lookupManifest s.manifests h = some m)
    (ht : m.tombstoned = true) (hts : m.tombstonedAt = some ts)
    (hgrace : ¬ s.now - ts < cfg.gracePeriod) :
    (purgeObject cfg s h).stores cfg.id h = none := by
  unfold purgeObject
  rw [hm]
  dsimp only
  rw [if_pos ht, hts]
  dsimp only
  rw [if_neg hgrace]
  by_cases he : m.holders.erase cfg.id = []
  · rw [if_pos he]
    exact delBytes_same s.stores cfg.id h
  · rw [if_neg he]
    exact delBytes_same s.stores cfg.id h

/-- Claim C2: `DeleteBLOB` succeeds by recording the tombstone only, leaving
every store untouched; while less than GracePeriod has passed since the
tombstone was recorded, a purge cycle on any peer is the identity, so the
object stays readable everywhere; once GracePeriod has elapsed, a purge
cycle on any peer deletes that peer's local bytes, after which an open there
returns NotFound. -/
theorem c2_tombstone_grace_period (s : ClusterState) (h : Hash) (m : Manifest)
    (hm : lookupManifest s.manifests h = some m) :
    ((deleteBLOB s h).2 = Except.ok () ∧ (deleteBLOB s h).1.stores = s.stores) ∧
    (∀ cfgq t, t - s.now < cfgq.gracePeriod →
      purgeObject cfgq { (deleteBLOB s h).1 with now := t } h =
        { (deleteBLOB s h).1 with now := t }) ∧
    (∀ cfgq t, cfgq.gracePeriod ≤ t - s.now →
      openBLOB (purgeObject cfgq { (deleteBLOB s h).1 with now := t } h) cfgq.id h =
        Except.error BlobErr.notFound) := by
  obtain ⟨hms, hst, hnw, hok⟩ := deleteBLOB_found s h m hm
  have hm1 : ∀ t, lookupManifest ({ (deleteBLOB s h).1 with now := t }).manifests h =
      some { m with tombstoned := true, tombstonedAt := some s.now } := by
    intro t
    show lookupManifest (deleteBLOB s h).1.manifests h = _
    rw [hms]
    rw [lookupManifest_update_same s.manifests h
      (fun mm => { mm with tombstoned := true, tombstonedAt := some s.now })
      (fun mm => rfl), hm]
    rfl
  refine ⟨⟨hok, hst⟩, ?_, ?_⟩
  · intro cfgq t hgrace
    exact purgeObject_skip cfgq _ h
      { m with tombstoned := true, tombstonedAt := some s.now } s.now
      (hm1 t) rfl rfl hgrace
  · intro cfgq t hgrace
    refine openBLOB_none _ cfgq.id h ?_
    exact purgeObject_purges cfgq _ h
      { m with tombstoned := true, tombstonedAt := some s.now } s.now
      (hm1 t) rfl rfl (by
        show ¬ t - s.now < cfgq.gracePeriod
        omega)

/-- Witness for C2: a concrete tombstoned object stays readable when purged
inside the grace period and is NotFound once a purge runs after it. -/
theorem c2_witness :
    openBLOB (purgeObject cfgOne
      { (deleteBLOB
          { peers := [], manifests := [(⟨[9], ["peer1"], 1, false, none⟩ : Manifest)],
            stores := putBytes emptyStores "peer1" [9] [9], now := 5 } [9]).1
        with now := 70000 } [9]) "peer1" [9] = Except.error BlobErr.notFound :=
  (c2_tombstone_grace_period
    { peers := [], manifests := [(⟨[9], ["peer1"], 1, false, none⟩ : Manifest)],
      stores := putBytes emptyStores "peer1" [9] [9], now := 5 } [9]
    ⟨[9], ["peer1"], 1, false, none⟩ (by decide)).2.2 cfgOne 70000 (by decide)

end BlobCluster

namespace BlobCluster

theorem monStateAt_before (threshold t1 t2 t : Nat) (ht : t ≤ t1) :
    monStateAt threshold t1 t2 t = ⟨true, 0⟩ := by
  induction t with
  | zero => rfl
  | succ t ih =>
      have ht' : t ≤ t1 := Nat.le_of_succ_le ht
      show (stepMon threshold (monStateAt threshold t1 t2 t) (connTrace t1 t2 t)).1 = _
      rw [ih ht']
      have hconn : connTrace t1 t2 t = true := by
        unfold connTrace
        simp only [decide_eq_true_eq]
        left
        omega
      rw [hconn]
      rfl

theorem monStateAt_downPhase (threshold t1 t2 : Nat) (hthr : 1 ≤ threshold)
    (k : Nat) (hk : t1 + k ≤ t2) :
    monStateAt threshold t1 t2 (t1 + k) = ⟨decide (k < threshold), k⟩ := by
  induction k with
  | zero =>
      rw [Nat.add_zero, monStateAt_before threshold t1 t2 t1 (Nat.le_refl t1)]
      rw [decide_eq_true (show 0 < threshold by omega)]
  | succ k ih =>
      have hk' : t1 + k ≤ t2 := by omega
      show (stepMon threshold (monStateAt threshold t1 t2 (t1 + k))
        (connTrace t1 t2 (t1 + k))).1 = _
      rw [ih hk']
      have hconn : connTrace t1 t2 (t1 + k) = false := by
        unfold connTrace
        simp only [decide_eq_false_iff_not]
        omega
      rw [hconn]
      unfold stepMon
      rw [if_neg (show ¬ false = true by decide)]
      dsimp only
      by_cases hcase : decide (k < threshold) = true ∧ threshold ≤ k + 1
      · rw [if_pos hcase]
        rw [decide_eq_false (show ¬ k + 1 < threshold by omega)]
      · rw [if_neg hcase]
        by_cases hkt : k < threshold
        · have hlt : k + 1 < threshold := by
            rcases Classical.em (threshold ≤ k + 1) with hle | hnle
            · exact absurd ⟨decide_eq_true hkt, hle⟩ hcase
            · omega
          rw [decide_eq_true hkt, decide_eq_true hlt]
        · rw [decide_eq_false hkt, decide_eq_false (show ¬ k + 1 < threshold by omega)]

theorem monStateAt_afterRestore (threshold t1 t2 : Nat) (hthr : 1 ≤ threshold)
    (hdown : t1 + threshold ≤ t2) (j : Nat) :
    monStateAt threshold t1 t2 (t2 + 1 + j) = ⟨true, 0⟩ := by
  induction j with
  | zero =>
      show (stepMon threshold (monStateAt threshold t1 t2 t2) (connTrace t1 t2 t2)).1 = _
      have hst : monStateAt threshold t1 t2 t2 =
          ⟨decide (t2 - t1 < threshold), t2 - t1⟩ := by
        have hd := monStateAt_downPhase threshold t1 t2 hthr (t2 - t1) (by omega)
        rw [show t1 + (t2 - t1) = t2 by omega] at hd
        exact hd
      rw [hst]
      have hconn : connTrace t1 t2 t2 = true := by
        unfold connTrace
        simp only [decide_eq_true_eq]
        right
        omega
      rw [hconn]
      rfl
  | succ j ih =>
      show (stepMon threshold (monStateAt threshold t1 t2 (t2 + 1 + j))
        (connTrace t1 t2 (t2 + 1 + j))).1 = _
      rw [ih]
      have hconn : connTrace t1 t2 (t2 + 1 + j) = true := by
        unfold connTrace
        simp only [decide_eq_true_eq]
        right
        omega
      rw [hconn]
      rfl

end BlobCluster

namespace BlobCluster

theorem eventAt_before (threshold t1 t2 t : Nat) (ht : t < t1) :
    eventAt threshold t1 t2 t = none := by
  unfold eventAt
  rw [monStateAt_before threshold t1 t2 t (Nat.le_of_lt ht)]
  have hconn : connTrace t1 t2 t = true := by
    unfold connTrace
    simp only [decide_eq_true_eq]
    left
    exact ht
  rw [hconn]
  rfl

theorem eventAt_downPhase (threshold t1 t2 : Nat) (hthr : 1 ≤ threshold)
    (k : Nat) (hk : t1 + k < t2) :
    eventAt threshold t1 t2 (t1 + k) =
      (if k + 1 = threshold then some Transition.down else none) := by
  unfold eventAt
  rw [monStateAt_downPhase threshold t1 t2 hthr k (Nat.le_of_lt hk)]
  have hconn : connTrace t1 t2 (t1 + k) = false := by
    unfold connTrace
    simp only [decide_eq_false_iff_not]
    omega
  rw [hconn]
  unfold stepMon
  rw [if_neg (show ¬ false = true by decide)]
  dsimp only
  by_cases hcase : decide (k < threshold) = true ∧ threshold ≤ k + 1
  · rw [if_pos hcase]
    have hkt : k < threshold := of_decide_eq_true hcase.1
    rw [if_pos (show k + 1 = threshold by omega)]
  · rw [if_neg hcase]
    have hne : ¬ k + 1 = threshold := by
      intro hcontra
      exact hcase ⟨decide_eq_true (show k < threshold by omega),
        by omega⟩
    rw [if_neg hne]

theorem eventAt_up (threshold t1 t2 : Nat) (hthr : 1 ≤ threshold)
    (hdown : t1 + threshold ≤ t2) :
    eventAt threshold t1 t2 t2 = some Transition.up := by
  unfold eventAt
  have hst : monStateAt threshold t1 t2 t2 =
      ⟨decide (t2 - t1 < threshold), t2 - t1⟩ := by
    have hd := monStateAt_downPhase threshold t1 t2 hthr (t2 - t1) (by omega)
    rw [show t1 + (t2 - t1) = t2 by omega] at hd
    exact hd
  rw [hst]
  have hconn : connTrace t1 t2 t2 = true := by
    unfold connTrace
    simp only [decide_eq_true_eq]
    right
    omega
  rw [hconn]
  unfold stepMon
  rw [if_pos (show true = true by rfl)]
  dsimp only
  rw [decide_eq_false (show ¬ t2 - t1 < threshold by omega)]
  rfl

theorem eventAt_after (threshold t1 t2 t : Nat) (hthr : 1 ≤ threshold)
    (hdown : t1 + threshold ≤ t2) (ht : t2 < t) :
    eventAt threshold t1 t2 t = none := by
  unfold eventAt
  have hsplit : t = t2 + 1 + (t - t2 - 1) := by omega
  rw [hsplit] at *
  rw [monStateAt_afterRestore threshold t1 t2 hthr hdown (t - t2 - 1)]
  have hconn : connTrace t1 t2 (t2 + 1 + (t - t2 - 1)) = true := by
    unfold connTrace
    simp only [decide_eq_true_eq]
    right
    omega
  rw [hconn]
  rfl

theorem eventAt_eq (threshold t1 t2 : Nat) (hthr : 1 ≤ threshold)
    (hdown : t1 + threshold ≤ t2) :
    ∀ t, eventAt threshold t1 t2 t =
      if t = t1 + (threshold - 1) then some Transition.down
      else if t = t2 then some Transition.up else none := by
  intro t
  by_cases hA : t = t1 + (threshold - 1)
  · rw [if_pos hA, hA]
    rw [eventAt_downPhase threshold t1 t2 hthr (threshold - 1) (by omega)]
    rw [if_pos (by omega)]
  · rw [if_neg hA]
    by_cases hB : t = t2
    · rw [if_pos hB, hB]
      exact eventAt_up threshold t1 t2 hthr hdown
    · rw [if_neg hB]
      rcases Nat.lt_or_ge t t1 with hlt | hge
      · exact eventAt_before threshold t1 t2 t hlt
      · rcases Nat.lt_or_ge t t2 with hlt2 | hge2
        · have hk : t = t1 + (t - t1) := by omega
          rw [hk]
          rw [eventAt_downPhase threshold t1 t2 hthr (t - t1) (by omega)]
          rw [if_neg (show ¬ (t - t1) + 1 = threshold by omega)]
        · exact eventAt_after threshold t1 t2 t hthr hdown (by omega)

theorem filterMap_two_points {α : Type} (f : Nat → Option α) (a b : Nat)
    (x y : α) (hab : a < b) (hfa : f a = some x) (hfb : f b = some y)
    (hnone : ∀ t, t ≠ a → t ≠ b → f t = none) :
    ∀ T, (List.range T).filterMap (fun t => (f t).map (fun e => (t, e))) =
      (if a < T then [(a, x)] else []) ++ (if b < T then [(b, y)] else []) := by
  intro T
  induction T with
  | zero => simp
  | succ T ih =>
      rw [List.range_succ, List.filterMap_append, ih]
      by_cases hTa : T = a
      · subst hTa
        rw [if_neg (Nat.lt_irrefl T), if_neg (show ¬ b < T by omega)]
        rw [if_pos (Nat.lt_succ_self T), if_neg (show ¬ b < T + 1 by omega)]
        simp [List.filterMap_cons, hfa]
      · by_cases hTb : T = b
        · subst hTb
          rw [if_pos (show a < T by omega), if_neg (Nat.lt_irrefl T)]
          rw [if_pos (show a < T + 1 by omega), if_pos (Nat.lt_succ_self T)]
          simp [List.filterMap_cons, hfb]
        · have hfT : f T = none := hnone T hTa hTb
          have hs1 : (if a < T + 1 then [(a, x)] else ([] : List (Nat × α))) =
              (if a < T then [(a, x)] else []) := by
            by_cases haT : a < T
            · rw [if_pos haT, if_pos (by omega)]
            · rw [if_neg haT, if_neg (by omega)]
          have hs2 : (if b < T + 1 then [(b, y)] else ([] : List (Nat × α))) =
              (if b < T then [(b, y)] else []) := by
            by_cases hbT : b < T
            · rw [if_pos hbT, if_pos (by omega)]
            · rw [if_neg hbT, if_neg (by omega)]
          rw [hs1, hs2]
          simp [List.filterMap_cons, hfT]

/-- Claim C8: in the reconnect scenario — connection up before the kill at
tick `t1`, down during `[t1, t2)`, restored from `t2` on — the watch signal
reports exactly two transitions and no others: one down at tick
`t1 + (threshold - 1)`, i.e. within `threshold` heartbeat periods of the
kill, and one up at tick `t2`, i.e. within one heartbeat period of the
restore; `threshold` is the MissedHeartbeats bound and the downtime lasts at
least `threshold` periods so the monitor can observe it (as the test
arranges by sleeping past the check timeout). -/
theorem c8_reconnect_two_transitions (threshold t1 t2 T : Nat)
    (hthr : 1 ≤ threshold) (hdown : t1 + threshold ≤ t2) (hT : t2 < T) :
    eventsUpTo threshold t1 t2 T =
      [(t1 + (threshold - 1), Transition.down), (t2, Transition.up)] := by
  unfold eventsUpTo
  have hchar := eventAt_eq threshold t1 t2 hthr hdown
  have hab : t1 + (threshold - 1) < t2 := by omega
  have hfa : eventAt threshold t1 t2 (t1 + (threshold - 1)) = some Transition.down := by
    rw [hchar, if_pos rfl]
  have hfb : eventAt threshold t1 t2 t2 = some Transition.up := by
    rw [hchar, if_neg (by omega), if_pos rfl]
  have hnone : ∀ t, t ≠ t1 + (threshold - 1) → t ≠ t2 →
      eventAt threshold t1 t2 t = none := by
    intro t hta htb
    rw [hchar, if_neg hta, if_neg htb]
  rw [filterMap_two_points (eventAt threshold t1 t2) (t1 + (threshold - 1)) t2
    Transition.down Transition.up hab hfa hfb hnone T]
  rw [if_pos (show t1 + (threshold - 1) < T by omega), if_pos hT]
  rfl

/-- Witness for C8: threshold 2, kill at tick 3, restore at tick 5, horizon
7: the watch reports exactly a down at tick 4 and an up at tick 5. -/
theorem c8_witness :
    eventsUpTo 2 3 5 7 = [(4, Transition.down), (5, Transition.up)] :=
  c8_reconnect_two_transitions 2 3 5 7 (by decide) (by decide) (by decide)

end BlobCluster
